import Mathlib

/-!
Verification of the Blackjack round core in `src/game.py`.

The embedding translates the logic-bearing parts of the `Game` class into
pure Lean functions:

* a card is a pair `(rank, suit)` with the suit a character, exactly as the
  Python tuples `(rank, suit)` built by `make_deck`;
* `make_deck` mirrors the nested `for suit / for rank` loops;
* Python's `list.pop()` (used for every draw) removes the LAST element of the
  list and raises `IndexError` on an empty list; it is embedded as `deckPop`,
  returning `none` for the empty deck;
* `score_hand` mirrors the accumulating `for` loop (via `List.foldl`) and the
  `while aces > 0` promotion loop (via the fuel-free recursion `promoteAces`,
  whose argument decreases exactly like the Python loop counter);
* the mutable `Game` attributes that belong to a round become the record
  `RoundState`; `new_round`, the Hit/Stand branches of `handle_events`,
  `update` and `determine_winner` become functions on that record, returning
  `Option RoundState` wherever the Python code can raise `IndexError`.
-/

namespace Blackjack

/-- A playing card: the Python tuple `(rank, suit)` with `rank` a number and
`suit` one of the four suit characters. -/
abbrev Card := Nat × Char

/-- The `game_state` strings `"PLAYER_TURN"` / `"DEALER_TURN"` / `"DONE"`
of `src/game.py`. -/
inductive GamePhase where
  | playerTurn
  | dealerTurn
  | done
deriving DecidableEq, Repr

/-- The suit list `['♣', '♦', '♥', '♠']` from `make_deck`. -/
def suits : List Char := ['♣', '♦', '♥', '♠']

/-- `make_deck` from `src/game.py`: for each suit in order, the ranks
`1,...,13` in order (Python's `range(1, 14)`).  Being a pure definition, the
order is the same fixed one on every use. -/
def make_deck : List Card :=
  suits.flatMap (fun suit => (List.range' 1 13).map (fun rank => (rank, suit)))

/-- Python's `deck.pop()`: removes and returns the last element of the list;
`none` embeds the `IndexError` raised on an empty list. -/
def deckPop (deck : List Card) : Option (Card × List Card) :=
  match deck.getLast? with
  | none => none
  | some c => some (c, deck.dropLast)

/-- One iteration of the `for card in hand` loop of `score_hand`: the
accumulator is the pair `(total, aces)`. -/
def scoreStep (p : Nat × Nat) (c : Card) : Nat × Nat :=
  if 10 < c.1 then (p.1 + 10, p.2)
  else if c.1 = 1 then (p.1 + 1, p.2 + 1)
  else (p.1 + c.1, p.2)

/-- The `while aces > 0` loop of `score_hand`: each iteration adds 10 to the
total when `total + 10 <= 21` and decrements the ace counter
unconditionally. -/
def promoteAces : Nat → Nat → Nat
  | 0, total => total
  | aces + 1, total => promoteAces aces (if total + 10 ≤ 21 then total + 10 else total)

/-- `score_hand` from `src/game.py`: accumulate `(total, aces)` over the hand,
then run the ace-promotion loop.  A total function: the "never raises" part of
the specification is its well-definedness on every list of cards. -/
def score_hand (hand : List Card) : Nat :=
  let p := hand.foldl scoreStep (0, 0)
  promoteAces p.2 p.1

/-- The per-round mutable attributes of the Python `Game` object. -/
structure RoundState where
  deck : List Card
  player_hand : List Card
  dealer_hand : List Card
  round_over : Bool
  winner_text : String
  game_state : GamePhase
deriving DecidableEq, Repr

/-- `new_round` from `src/game.py`, parametrised by the already-shuffled deck
(`random.shuffle` is modelled by quantifying over permutations of `make_deck`
in the theorems).  The four `deck.pop()` calls happen left to right, so the
player receives the last and second-to-last cards of the shuffled list. -/
def new_round (shuffled : List Card) : Option RoundState :=
  match deckPop shuffled with
  | none => none
  | some (c1, d1) =>
    match deckPop d1 with
    | none => none
    | some (c2, d2) =>
      match deckPop d2 with
      | none => none
      | some (c3, d3) =>
        match deckPop d3 with
        | none => none
        | some (c4, d4) =>
          some { deck := d4, player_hand := [c1, c2], dealer_hand := [c3, c4],
                 round_over := false, winner_text := "",
                 game_state := GamePhase.playerTurn }

/-- The Hit branch of `handle_events`: guarded by
`if not self.round_over:` and `if self.game_state == "PLAYER_TURN":`;
otherwise the click is ignored and the state is returned unchanged. -/
def handle_hit (s : RoundState) : Option RoundState :=
  if s.round_over = false ∧ s.game_state = GamePhase.playerTurn then
    match deckPop s.deck with
    | none => none
    | some (c, d) =>
      let player := s.player_hand ++ [c]
      let player_total := score_hand player
      if 21 < player_total then
        some { s with deck := d, player_hand := player, round_over := true,
                      game_state := GamePhase.done,
                      winner_text := "You busted! Dealer wins." }
      else if player_total = 21 then
        some { s with deck := d, player_hand := player, round_over := true,
                      game_state := GamePhase.done,
                      winner_text := "You hit 21! You win." }
      else
        some { s with deck := d, player_hand := player }
  else some s

/-- The Stand branch of `handle_events`, under the same guards as Hit. -/
def handle_stand (s : RoundState) : Option RoundState :=
  if s.round_over = false ∧ s.game_state = GamePhase.playerTurn then
    some { s with game_state := GamePhase.dealerTurn }
  else some s

/-- The Restart branch of `handle_events`: `self.new_round()` is called
whatever the current state is; the old round is discarded entirely. -/
def handle_restart (_ : RoundState) (shuffled : List Card) : Option RoundState :=
  new_round shuffled

/-- `determine_winner` from `src/game.py` (it only writes `winner_text`,
embedded here as returning that string). -/
def determine_winner (s : RoundState) : String :=
  let player_score := score_hand s.player_hand
  let dealer_score := score_hand s.dealer_hand
  if 21 < dealer_score then "Dealer busted! You win."
  else if dealer_score < player_score then "You win!"
  else if player_score < dealer_score then "Dealer wins."
  else "It's a tie!"

/-- `update` from `src/game.py`: one dealer auto-play step per frame while
`game_state == "DEALER_TURN"`; in any other phase it changes nothing. -/
def update (s : RoundState) : Option RoundState :=
  if s.game_state = GamePhase.dealerTurn then
    if score_hand s.dealer_hand < 17 then
      match deckPop s.deck with
      | none => none
      | some (c, d) =>
        some { s with deck := d, dealer_hand := s.dealer_hand ++ [c] }
    else
      some { s with game_state := GamePhase.done, round_over := true,
                    winner_text := determine_winner s }
  else some s

/-- All cards of a round, in the three collections the invariant speaks
about: remaining deck, player hand, dealer hand. -/
def cardsOf (s : RoundState) : List Card :=
  s.deck ++ s.player_hand ++ s.dealer_hand

/-- The deck/hands invariant: no card appears twice across the three
collections and every card belongs to the 52-card universe. -/
def RoundInv (s : RoundState) : Prop :=
  (cardsOf s).Nodup ∧ ∀ c ∈ cardsOf s, c ∈ make_deck

/-- One step of the round state machine: a Hit click, a Stand click, or one
dealer auto-play tick. -/
inductive GameStep : RoundState → RoundState → Prop where
  | hit : ∀ {s s' : RoundState}, handle_hit s = some s' → GameStep s s'
  | stand : ∀ {s s' : RoundState}, handle_stand s = some s' → GameStep s s'
  | dealer : ∀ {s s' : RoundState}, update s = some s' → GameStep s s'

/-- The value a card contributes to the base sum of `score_hand` (faces count
10, an Ace provisionally 1). -/
def baseVal (c : Card) : Nat :=
  if 10 < c.1 then 10 else if c.1 = 1 then 1 else c.1

/-- The base sum computed by the `for` loop of `score_hand`. -/
def handBase : List Card → Nat
  | [] => 0
  | c :: rest => baseVal c + handBase rest

/-- The number of Aces counted by the `for` loop of `score_hand`. -/
def acesCount : List Card → Nat
  | [] => 0
  | c :: rest => (if c.1 = 1 then 1 else 0) + acesCount rest

/-- All totals achievable by choosing each Ace's value independently as 1 or
11 (faces count 10, other ranks count themselves) — the search space the
specification describes for the scorer. -/
def handTotals : List Card → List Nat
  | [] => [0]
  | c :: rest =>
    let ts := handTotals rest
    if c.1 = 1 then ts.map (· + 1) ++ ts.map (· + 11)
    else if 10 < c.1 then ts.map (· + 10)
    else ts.map (· + c.1)

/-- The score demanded by the specification: the maximum achievable total
that is ≤ 21, or the minimum achievable total when every choice busts. -/
def bestSpec (hand : List Card) : Nat :=
  let ts := handTotals hand
  let ok := ts.filter (fun t => t ≤ 21)
  if ok = [] then (ts.min?).getD 0 else (ok.max?).getD 0

/-- The one-promotion reformulation of the scorer (claim C10): base sum with
ranks capped at 10, plus 10 exactly once when the hand holds an Ace and the
addition stays within 21. -/
def simpleScore (hand : List Card) : Nat :=
  let b := (hand.map (fun c => min c.1 10)).sum
  if (∃ c ∈ hand, c.1 = 1) ∧ b + 10 ≤ 21 then b + 10 else b

/-! ### Scoring lemmas -/

theorem handBase_cons (c : Card) (rest : List Card) :
    handBase (c :: rest) = baseVal c + handBase rest := rfl

theorem acesCount_cons (c : Card) (rest : List Card) :
    acesCount (c :: rest) = (if c.1 = 1 then 1 else 0) + acesCount rest := rfl

/-- The `for card in hand` loop of `score_hand` computes the base sum and the
ace count. -/
theorem foldl_scoreStep (hand : List Card) : ∀ t a : Nat,
    hand.foldl scoreStep (t, a) = (t + handBase hand, a + acesCount hand) := by
  induction hand with
  | nil => intro t a; simp [handBase, acesCount]
  | cons c rest ih =>
    intro t a
    rw [List.foldl_cons]
    by_cases h10 : 10 < c.1
    · have hs : scoreStep (t, a) c = (t + 10, a) := by simp [scoreStep, h10]
      have hb : baseVal c = 10 := by simp [baseVal, h10]
      have hne : ¬c.1 = 1 := by omega
      rw [hs, ih, handBase_cons, acesCount_cons, hb, if_neg hne, Prod.mk.injEq]
      exact ⟨by omega, by omega⟩
    · by_cases h1 : c.1 = 1
      · have hs : scoreStep (t, a) c = (t + 1, a + 1) := by simp [scoreStep, h10, h1]
        have hb : baseVal c = 1 := by simp [baseVal, h10, h1]
        rw [hs, ih, handBase_cons, acesCount_cons, hb, if_pos h1, Prod.mk.injEq]
        exact ⟨by omega, by omega⟩
      · have hs : scoreStep (t, a) c = (t + c.1, a) := by simp [scoreStep, h10, h1]
        have hb : baseVal c = c.1 := by simp [baseVal, h10, h1]
        rw [hs, ih, handBase_cons, acesCount_cons, hb, if_neg h1, Prod.mk.injEq]
        exact ⟨by omega, by omega⟩

/-- Closed form for the ace-promotion loop: it adds 10 as many times as fit
below 21, capped by the number of aces. -/
theorem promoteAces_eq (a : Nat) : ∀ t : Nat,
    promoteAces a t = t + 10 * min a ((21 - t) / 10) := by
  induction a with
  | zero => intro t; simp [promoteAces]
  | succ a ih =>
    intro t
    rw [promoteAces]
    by_cases h : t + 10 ≤ 21
    · rw [if_pos h, ih]
      have h1 : (21 - t) / 10 = (21 - (t + 10)) / 10 + 1 := by omega
      rw [h1]
      omega
    · rw [if_neg h, ih]
      have h2 : (21 - t) / 10 = 0 := by omega
      rw [h2]
      omega

/-- Closed form for `score_hand`. -/
theorem score_hand_eq (hand : List Card) :
    score_hand hand
      = handBase hand + 10 * min (acesCount hand) ((21 - handBase hand) / 10) := by
  show promoteAces (hand.foldl scoreStep (0, 0)).2 (hand.foldl scoreStep (0, 0)).1
      = _
  rw [foldl_scoreStep, promoteAces_eq]
  simp

/-- Every ace contributes 1 to the base sum, so the ace count never exceeds
the base sum. -/
theorem acesCount_le_handBase (hand : List Card) :
    acesCount hand ≤ handBase hand := by
  induction hand with
  | nil => simp [acesCount, handBase]
  | cons c rest ih =>
    rw [handBase_cons, acesCount_cons]
    have : (if c.1 = 1 then 1 else 0) ≤ baseVal c := by
      unfold baseVal; split_ifs <;> omega
    omega

theorem handBase_eq_sum_min (hand : List Card) :
    (hand.map (fun c => min c.1 10)).sum = handBase hand := by
  induction hand with
  | nil => simp [handBase]
  | cons c rest ih =>
    rw [List.map_cons, List.sum_cons, ih, handBase_cons]
    have : min c.1 10 = baseVal c := by unfold baseVal; split_ifs <;> omega
    omega

theorem exists_ace_iff (hand : List Card) :
    (∃ c ∈ hand, c.1 = 1) ↔ 1 ≤ acesCount hand := by
  induction hand with
  | nil => simp [acesCount]
  | cons c rest ih =>
    rw [acesCount_cons]
    by_cases h1 : c.1 = 1
    · simp [h1]
    · rw [if_neg h1]
      simp only [List.mem_cons]
      constructor
      · rintro ⟨x, hx | hx, hx1⟩
        · exact absurd (hx ▸ hx1) h1
        · simpa using ih.mp ⟨x, hx, hx1⟩
      · intro h
        obtain ⟨x, hx, hx1⟩ := ih.mpr (by omega)
        exact ⟨x, Or.inr hx, hx1⟩

/-- The achievable totals: exactly the base sum plus 10 for each ace chosen
to count 11. -/
theorem mem_handTotals (hand : List Card) : ∀ t : Nat,
    t ∈ handTotals hand ↔ ∃ k, k ≤ acesCount hand ∧ t = handBase hand + 10 * k := by
  induction hand with
  | nil =>
    intro t
    simp [handTotals, acesCount, handBase]
  | cons c rest ih =>
    intro t
    simp only [handTotals]
    rw [handBase_cons, acesCount_cons]
    by_cases h1 : c.1 = 1
    · rw [if_pos h1, if_pos h1]
      have hb : baseVal c = 1 := by simp [baseVal, h1]
      rw [hb]
      simp only [List.mem_append, List.mem_map, ih]
      constructor
      · rintro (⟨x, ⟨k, hk, rfl⟩, rfl⟩ | ⟨x, ⟨k, hk, rfl⟩, rfl⟩)
        · exact ⟨k, by omega, by omega⟩
        · exact ⟨k + 1, by omega, by omega⟩
      · rintro ⟨k, hk, rfl⟩
        by_cases hka : k ≤ acesCount rest
        · exact Or.inl ⟨handBase rest + 10 * k, ⟨k, hka, rfl⟩, by omega⟩
        · exact Or.inr ⟨handBase rest + 10 * acesCount rest,
            ⟨acesCount rest, le_refl _, rfl⟩, by omega⟩
    · rw [if_neg h1, if_neg h1]
      by_cases h10 : 10 < c.1
      · rw [if_pos h10]
        have hb : baseVal c = 10 := by simp [baseVal, h10]
        rw [hb]
        simp only [List.mem_map, ih]
        constructor
        · rintro ⟨x, ⟨k, hk, rfl⟩, rfl⟩
          exact ⟨k, by omega, by omega⟩
        · rintro ⟨k, hk, rfl⟩
          exact ⟨handBase rest + 10 * k, ⟨k, by omega, rfl⟩, by omega⟩
      · rw [if_neg h10]
        have hb : baseVal c = c.1 := by simp [baseVal, h10, h1]
        rw [hb]
        simp only [List.mem_map, ih]
        constructor
        · rintro ⟨x, ⟨k, hk, rfl⟩, rfl⟩
          exact ⟨k, by omega, by omega⟩
        · rintro ⟨k, hk, rfl⟩
          exact ⟨handBase rest + 10 * k, ⟨k, by omega, rfl⟩, by omega⟩

/-! ### Claims C1 and C10: correctness of the scorer -/

/-- C1: for every hand of cards with ranks in 1..13, `score_hand` returns the
maximum total ≤ 21 achievable by choosing each Ace's value independently as
1 or 11 (faces counting 10), or the minimum achievable total when even all
Aces as 1 bust; and the empty hand scores 0.  (`score_hand` is a total Lean
function, which embeds "never raises".) -/
theorem score_hand_correct :
    (∀ hand : List Card, (∀ c ∈ hand, 1 ≤ c.1 ∧ c.1 ≤ 13) →
      score_hand hand = bestSpec hand) ∧ score_hand [] = 0 := by
  constructor
  · intro hand _
    rw [score_hand_eq]
    have hba := acesCount_le_handBase hand
    have hmem : ∀ t, t ∈ handTotals hand ↔
        ∃ k, k ≤ acesCount hand ∧ t = handBase hand + 10 * k := mem_handTotals hand
    simp only [bestSpec]
    by_cases hb : handBase hand ≤ 21
    · have hbmem : handBase hand ∈ handTotals hand :=
        (hmem _).mpr ⟨0, by omega, by omega⟩
      have hbfil : handBase hand ∈ (handTotals hand).filter (fun t => t ≤ 21) :=
        List.mem_filter.mpr ⟨hbmem, by simpa using hb⟩
      rw [if_neg (List.ne_nil_of_mem hbfil)]
      have hm : ((handTotals hand).filter (fun t => t ≤ 21)).max?
          = some (handBase hand
              + 10 * min (acesCount hand) ((21 - handBase hand) / 10)) := by
        rw [List.max?_eq_some_iff']
        constructor
        · refine List.mem_filter.mpr ⟨(hmem _).mpr ⟨_, ?_, rfl⟩, ?_⟩
          · omega
          · simp only [decide_eq_true_eq]
            omega
        · intro t htf
          obtain ⟨htm, htle⟩ := List.mem_filter.mp htf
          obtain ⟨k, hk, rfl⟩ := (hmem t).mp htm
          simp only [decide_eq_true_eq] at htle
          omega
      rw [hm, Option.getD_some]
    · have hfil : (handTotals hand).filter (fun t => t ≤ 21) = [] := by
        rw [List.filter_eq_nil_iff]
        intro t htm
        obtain ⟨k, hk, rfl⟩ := (hmem t).mp htm
        simp only [decide_eq_true_eq]
        omega
      rw [if_pos hfil]
      have hmin : (handTotals hand).min? = some (handBase hand) := by
        rw [List.min?_eq_some_iff']
        constructor
        · exact (hmem _).mpr ⟨0, by omega, by omega⟩
        · intro t htm
          obtain ⟨k, hk, rfl⟩ := (hmem t).mp htm
          omega
      rw [hmin, Option.getD_some]
      omega
  · rfl

/-- Witness for C1 on the concrete hand Ace of spades, King of hearts
(scenario 1 of the specification, score 21). -/
theorem score_hand_correct_witness :
    score_hand [((1 : Nat), '♠'), (13, '♥')] = bestSpec [((1 : Nat), '♠'), (13, '♥')] :=
  score_hand_correct.1 _ (by decide)

/-- C10: `score_hand` is extensionally equal to the single-promotion
reformulation (base sum with ranks capped at 10, plus 10 exactly once when
some Ace exists and the total stays ≤ 21): the promotion loop never promotes
two Aces, because with two or more Aces the base sum is already ≥ 2. -/
theorem score_hand_eq_simpleScore : ∀ hand : List Card,
    score_hand hand = simpleScore hand := by
  intro hand
  rw [score_hand_eq]
  simp only [simpleScore, handBase_eq_sum_min]
  have hba := acesCount_le_handBase hand
  by_cases hace : ∃ c ∈ hand, c.1 = 1
  · have ha : 1 ≤ acesCount hand := (exists_ace_iff hand).mp hace
    by_cases hb : handBase hand + 10 ≤ 21
    · rw [if_pos ⟨hace, hb⟩]
      omega
    · rw [if_neg (by tauto)]
      omega
  · have ha : acesCount hand = 0 := by
      by_contra h
      exact hace ((exists_ace_iff hand).mpr (by omega))
    rw [if_neg (fun h => hace h.1)]
    rw [ha]
    omega

/-! ### Deck lemmas -/

theorem deckPop_eq_none_iff (d : List Card) : deckPop d = none ↔ d = [] := by
  unfold deckPop
  rcases h : d.getLast? with _ | c
  · simp [List.getLast?_eq_none_iff.mp h]
  · have hne : d ≠ [] := by
      intro h0
      rw [h0] at h
      simp at h
    simp [hne]

/-- A successful draw splits the deck as `rest ++ [drawn card]`. -/
theorem deckPop_eq_some {d : List Card} {c : Card} {d1 : List Card}
    (h : deckPop d = some (c, d1)) : d = d1 ++ [c] := by
  unfold deckPop at h
  rcases hg : d.getLast? with _ | x
  · rw [hg] at h
    simp at h
  · rw [hg] at h
    simp only [Option.some.injEq, Prod.mk.injEq] at h
    obtain ⟨hx, hd⟩ := h
    have hne : d ≠ [] := by
      intro h0
      rw [h0] at hg
      simp at hg
    have hgl : x = d.getLast hne := by
      have h2 := List.getLast?_eq_getLast d hne
      rw [hg] at h2
      exact Option.some.inj h2
    rw [← hd, ← hx, hgl]
    exact (List.dropLast_append_getLast hne).symm

/-- C7: a draw removes and returns the card at the fixed "top" end of the
deck (the end Python's `list.pop()` works on): for every non-empty deck the
returned card is the end card and the remaining deck is the original minus
that card; drawing from an empty deck fails (`none` embeds the fatal
`IndexError`) instead of returning a card. -/
theorem deckPop_spec :
    deckPop ([] : List Card) = none ∧
    ∀ d : List Card, d ≠ [] →
      ∃ c d1, deckPop d = some (c, d1) ∧ d1 ++ [c] = d := by
  refine ⟨rfl, ?_⟩
  intro d hne
  refine ⟨d.getLast hne, d.dropLast, ?_, List.dropLast_append_getLast hne⟩
  unfold deckPop
  rw [List.getLast?_eq_getLast d hne]

/-- Witness for C7 on the one-card deck holding the Ace of spades. -/
theorem deckPop_spec_witness :
    ∃ c d1, deckPop [((1 : Nat), '♠')] = some (c, d1) ∧ d1 ++ [c] = [((1 : Nat), '♠')] :=
  deckPop_spec.2 [((1 : Nat), '♠')] (by decide)

/-- C5: the deck builder returns exactly 52 cards, without duplicates, and a
card is in it exactly when its rank lies in 1..13 and its suit is one of the
four suit symbols; `make_deck` is a constant, so the order is the same fixed
one on every call. -/
theorem make_deck_spec :
    make_deck.length = 52 ∧ make_deck.Nodup ∧
    (∀ c : Card, c ∈ make_deck ↔
      1 ≤ c.1 ∧ c.1 ≤ 13 ∧ (c.2 = '♣' ∨ c.2 = '♦' ∨ c.2 = '♥' ∨ c.2 = '♠')) := by
  refine ⟨by decide, by decide, ?_⟩
  intro c
  obtain ⟨r, u⟩ := c
  simp only [make_deck, suits, List.mem_flatMap, List.mem_map]
  constructor
  · rintro ⟨suit, hsuit, rank, hrank, heq⟩
    rw [Prod.mk.injEq] at heq
    obtain ⟨hr, hu⟩ := heq
    subst hr
    subst hu
    rw [List.mem_range'_1] at hrank
    simp only [List.mem_cons, List.not_mem_nil, or_false] at hsuit
    exact ⟨by omega, by omega, hsuit⟩
  · rintro ⟨h1, h13, hsuit⟩
    refine ⟨u, ?_, r, ?_, rfl⟩
    · simp only [List.mem_cons, List.not_mem_nil, or_false]
      exact hsuit
    · rw [List.mem_range'_1]
      omega

/-! ### Round construction lemmas -/

/-- What a successful `new_round` yields: fresh flags and phase, two cards
in each hand, and all dealt cards together with the remaining deck form a
permutation of the shuffled input list. -/
theorem new_round_cards {d : List Card} {s : RoundState} (h : new_round d = some s) :
    s.round_over = false ∧ s.winner_text = "" ∧
    s.game_state = GamePhase.playerTurn ∧
    s.player_hand.length = 2 ∧ s.dealer_hand.length = 2 ∧
    s.deck.length + 4 = d.length ∧ (cardsOf s).Perm d := by
  unfold new_round at h
  split at h
  next => exact Option.noConfusion h
  next c1 d1 h1 =>
  split at h
  next => exact Option.noConfusion h
  next c2 d2 h2 =>
  split at h
  next => exact Option.noConfusion h
  next c3 d3 h3 =>
  split at h
  next => exact Option.noConfusion h
  next c4 d4 h4 =>
  have hs := Option.some.inj h
  subst hs
  have e1 := deckPop_eq_some h1
  have e2 := deckPop_eq_some h2
  have e3 := deckPop_eq_some h3
  have e4 := deckPop_eq_some h4
  refine ⟨rfl, rfl, rfl, rfl, rfl, ?_, ?_⟩
  · rw [e1, e2, e3, e4]
    simp
  · rw [List.perm_iff_count]
    intro x
    rw [e1, e2, e3, e4]
    simp only [cardsOf, List.count_append, List.count_cons, List.count_nil]
    ring

/-- With at least four cards in the shuffled deck, `new_round` succeeds. -/
theorem new_round_total {d : List Card} (h4 : 4 ≤ d.length) :
    ∃ s, new_round d = some s := by
  rcases h1 : deckPop d with _ | ⟨c1, d1⟩
  · rw [deckPop_eq_none_iff] at h1
    rw [h1] at h4
    simp at h4
  have l1 : d1.length + 1 = d.length := by rw [deckPop_eq_some h1]; simp
  rcases h2 : deckPop d1 with _ | ⟨c2, d2⟩
  · rw [deckPop_eq_none_iff] at h2
    rw [h2] at l1
    simp at l1
    omega
  have l2 : d2.length + 1 = d1.length := by rw [deckPop_eq_some h2]; simp
  rcases h3 : deckPop d2 with _ | ⟨c3, d3⟩
  · rw [deckPop_eq_none_iff] at h3
    rw [h3] at l2
    simp at l2
    omega
  have l3 : d3.length + 1 = d2.length := by rw [deckPop_eq_some h3]; simp
  rcases hp4 : deckPop d3 with _ | ⟨c4, d4⟩
  · rw [deckPop_eq_none_iff] at hp4
    rw [hp4] at l3
    simp at l3
    omega
  refine ⟨{ deck := d4, player_hand := [c1, c2], dealer_hand := [c3, c4],
            round_over := false, winner_text := "",
            game_state := GamePhase.playerTurn }, ?_⟩
  simp only [new_round, h1, h2, h3, hp4]

/-! ### Claims about starting and restarting a round -/

/-- C8: a Restart processed in any phase rebuilds and reshuffles the deck,
deals two cards to each party (leaving 48), resets the phase to PlayerTurn
and clears the outcome text; all cards of the new round come from the fresh
52-card deck, so nothing carries over.  The shuffle is modelled by
quantifying over all permutations `d` of `make_deck`. -/
theorem restart_fresh_round (s : RoundState) (d : List Card)
    (hd : d.Perm make_deck) :
    ∃ s2, handle_restart s d = some s2 ∧
      s2.game_state = GamePhase.playerTurn ∧ s2.round_over = false ∧
      s2.winner_text = "" ∧ s2.player_hand.length = 2 ∧
      s2.dealer_hand.length = 2 ∧ s2.deck.length = 48 ∧
      (s2.deck ++ s2.player_hand ++ s2.dealer_hand).Perm make_deck := by
  have hlen : d.length = 52 := by
    rw [hd.length_eq]
    decide
  obtain ⟨s2, hs2⟩ := new_round_total (d := d) (by omega)
  obtain ⟨f1, f2, f3, f4, f5, f6, f7⟩ := new_round_cards hs2
  exact ⟨s2, hs2, f3, f1, f2, f4, f5, by omega, f7.trans hd⟩

/-- Witness for C8: restarting from a finished round with the unshuffled
deck. -/
theorem restart_fresh_round_witness :
    ∃ s2, handle_restart
        { deck := [], player_hand := [((5 : Nat), '♦')],
          dealer_hand := [((7 : Nat), '♠')], round_over := true,
          winner_text := "Dealer wins.", game_state := GamePhase.done }
        make_deck = some s2 ∧
      s2.game_state = GamePhase.playerTurn ∧ s2.round_over = false ∧
      s2.winner_text = "" ∧ s2.player_hand.length = 2 ∧
      s2.dealer_hand.length = 2 ∧ s2.deck.length = 48 ∧
      (s2.deck ++ s2.player_hand ++ s2.dealer_hand).Perm make_deck :=
  restart_fresh_round _ make_deck (List.Perm.refl _)

/-- C9: immediately after a round starts the phase is PlayerTurn and the
outcome text is empty, even when the two dealt player cards already score
exactly 21 — `new_round` never checks the initial score (the natural-21
check in the source is commented out), so the instant-win rule only fires
inside the Hit handler. -/
theorem new_round_no_instant_win (d : List Card) (s : RoundState)
    (h : new_round d = some s) (_h21 : score_hand s.player_hand = 21) :
    s.game_state = GamePhase.playerTurn ∧ s.winner_text = "" ∧
    s.round_over = false := by
  obtain ⟨f1, f2, f3, _, _, _, _⟩ := new_round_cards h
  exact ⟨f3, f2, f1⟩

/-- Witness for C9: a shuffle whose top two cards are an Ace and a King, a
dealt natural 21. -/
theorem new_round_no_instant_win_witness :
    ({ deck := [], player_hand := [((1 : Nat), '♠'), (13, '♥')],
       dealer_hand := [((3 : Nat), '♣'), (2, '♣')], round_over := false,
       winner_text := "", game_state := GamePhase.playerTurn } :
        RoundState).game_state = GamePhase.playerTurn ∧
    ({ deck := [], player_hand := [((1 : Nat), '♠'), (13, '♥')],
       dealer_hand := [((3 : Nat), '♣'), (2, '♣')], round_over := false,
       winner_text := "", game_state := GamePhase.playerTurn } :
        RoundState).winner_text = "" ∧
    ({ deck := [], player_hand := [((1 : Nat), '♠'), (13, '♥')],
       dealer_hand := [((3 : Nat), '♣'), (2, '♣')], round_over := false,
       winner_text := "", game_state := GamePhase.playerTurn } :
        RoundState).round_over = false :=
  new_round_no_instant_win [(2, '♣'), (3, '♣'), (13, '♥'), (1, '♠')] _
    (by decide) (by decide)

/-! ### Claims about the Hit and Stand handlers -/

/-- C4: in any state whose phase is not PlayerTurn, Hit and Stand are silent
no-ops: the handler returns the state completely unchanged (deck, hands,
phase, flags and outcome text included). -/
theorem hit_stand_noop_outside_player_turn (s : RoundState)
    (h : s.game_state ≠ GamePhase.playerTurn) :
    handle_hit s = some s ∧ handle_stand s = some s := by
  constructor
  · unfold handle_hit
    rw [if_neg (fun hc => h hc.2)]
  · unfold handle_stand
    rw [if_neg (fun hc => h hc.2)]

/-- Witness for C4: a Hit issued during the dealer's turn (scenario 6 of the
specification). -/
theorem hit_stand_noop_outside_player_turn_witness :
    handle_hit
        { deck := [((5 : Nat), '♦')], player_hand := [((9 : Nat), '♣')],
          dealer_hand := [((7 : Nat), '♠')], round_over := false,
          winner_text := "", game_state := GamePhase.dealerTurn }
      = some { deck := [((5 : Nat), '♦')], player_hand := [((9 : Nat), '♣')],
               dealer_hand := [((7 : Nat), '♠')], round_over := false,
               winner_text := "", game_state := GamePhase.dealerTurn } ∧
    handle_stand
        { deck := [((5 : Nat), '♦')], player_hand := [((9 : Nat), '♣')],
          dealer_hand := [((7 : Nat), '♠')], round_over := false,
          winner_text := "", game_state := GamePhase.dealerTurn }
      = some { deck := [((5 : Nat), '♦')], player_hand := [((9 : Nat), '♣')],
               dealer_hand := [((7 : Nat), '♠')], round_over := false,
               winner_text := "", game_state := GamePhase.dealerTurn } :=
  hit_stand_noop_outside_player_turn _ (by decide)

/-- C2: a Hit processed in PlayerTurn draws exactly one card from the deck,
appends it to the player hand, and then: a recomputed score above 21 ends
the round (`Done`) with the player-busts outcome; exactly 21 ends the round
with the player-wins outcome without any dealer play; below 21 the phase
stays PlayerTurn and the outcome text stays empty. -/
theorem hit_in_player_turn (s : RoundState) (c : Card) (d : List Card)
    (hphase : s.game_state = GamePhase.playerTurn)
    (hover : s.round_over = false) (htext : s.winner_text = "")
    (hpop : deckPop s.deck = some (c, d)) :
    ∃ s2, handle_hit s = some s2 ∧
      s2.player_hand = s.player_hand ++ [c] ∧ s2.deck = d ∧
      s2.dealer_hand = s.dealer_hand ∧
      (21 < score_hand (s.player_hand ++ [c]) →
        s2.game_state = GamePhase.done ∧ s2.round_over = true ∧
        s2.winner_text = "You busted! Dealer wins.") ∧
      (score_hand (s.player_hand ++ [c]) = 21 →
        s2.game_state = GamePhase.done ∧ s2.round_over = true ∧
        s2.winner_text = "You hit 21! You win.") ∧
      (score_hand (s.player_hand ++ [c]) < 21 →
        s2.game_state = GamePhase.playerTurn ∧ s2.round_over = false ∧
        s2.winner_text = "") := by
  by_cases hgt : 21 < score_hand (s.player_hand ++ [c])
  · refine ⟨{ s with
        deck := d,
        player_hand := s.player_hand ++ [c],
        round_over := true,
        game_state := GamePhase.done,
        winner_text := "You busted! Dealer wins." },
      ?_, rfl, rfl, rfl, fun _ => ⟨rfl, rfl, rfl⟩,
      fun he => absurd hgt (by omega), fun hlt => absurd hgt (by omega)⟩
    simp only [handle_hit, hover, hphase, hpop, and_self, if_true]
    rw [if_pos hgt]
  · by_cases heq : score_hand (s.player_hand ++ [c]) = 21
    · refine ⟨{ s with
          deck := d,
          player_hand := s.player_hand ++ [c],
          round_over := true,
          game_state := GamePhase.done,
          winner_text := "You hit 21! You win." },
        ?_, rfl, rfl, rfl, fun he => absurd he hgt,
        fun _ => ⟨rfl, rfl, rfl⟩, fun hlt => absurd heq (by omega)⟩
      simp only [handle_hit, hover, hphase, hpop, and_self, if_true]
      rw [if_neg hgt, if_pos heq]
    · refine ⟨{ s with deck := d, player_hand := s.player_hand ++ [c] },
        ?_, rfl, rfl, rfl, fun he => absurd he hgt,
        fun he => absurd he heq, fun _ => ⟨hphase, hover, htext⟩⟩
      simp only [handle_hit, hover, hphase, hpop, and_self, if_true]
      rw [if_neg hgt, if_neg heq]

/-- Witness for C2: scenario 4 of the specification — hitting from
`[(9,♣),(2,♦)]` and drawing `(10,♥)` for a total of 21. -/
theorem hit_in_player_turn_witness :
    ∃ s2, handle_hit
        { deck := [((5 : Nat), '♦'), (10, '♥')],
          player_hand := [((9 : Nat), '♣'), (2, '♦')],
          dealer_hand := [((10 : Nat), '♠'), (7, '♠')], round_over := false,
          winner_text := "", game_state := GamePhase.playerTurn }
      = some s2 ∧
      s2.player_hand = [((9 : Nat), '♣'), (2, '♦')] ++ [((10 : Nat), '♥')] ∧
      s2.deck = [((5 : Nat), '♦')] ∧
      s2.dealer_hand = [((10 : Nat), '♠'), (7, '♠')] ∧
      (21 < score_hand ([((9 : Nat), '♣'), (2, '♦')] ++ [((10 : Nat), '♥')]) →
        s2.game_state = GamePhase.done ∧ s2.round_over = true ∧
        s2.winner_text = "You busted! Dealer wins.") ∧
      (score_hand ([((9 : Nat), '♣'), (2, '♦')] ++ [((10 : Nat), '♥')]) = 21 →
        s2.game_state = GamePhase.done ∧ s2.round_over = true ∧
        s2.winner_text = "You hit 21! You win.") ∧
      (score_hand ([((9 : Nat), '♣'), (2, '♦')] ++ [((10 : Nat), '♥')]) < 21 →
        s2.game_state = GamePhase.playerTurn ∧ s2.round_over = false ∧
        s2.winner_text = "") :=
  hit_in_player_turn _ ((10 : Nat), '♥') [((5 : Nat), '♦')]
    (by decide) (by decide) (by decide) (by decide)

/-- C3: one dealer auto-play step in DealerTurn: with a dealer score below
17 exactly one card is drawn and appended to the dealer hand and the phase
stays DealerTurn; with a score of at least 17 the phase becomes Done and the
outcome is decided by comparison — a dealer score above 21 is a player win
(dealer busts), otherwise the higher score wins and equal scores tie. -/
theorem update_dealer_turn (s : RoundState)
    (hphase : s.game_state = GamePhase.dealerTurn) :
    (∀ c d, deckPop s.deck = some (c, d) → score_hand s.dealer_hand < 17 →
      ∃ s2, update s = some s2 ∧ s2.dealer_hand = s.dealer_hand ++ [c] ∧
        s2.deck = d ∧ s2.player_hand = s.player_hand ∧
        s2.game_state = GamePhase.dealerTurn ∧
        s2.round_over = s.round_over ∧ s2.winner_text = s.winner_text) ∧
    (17 ≤ score_hand s.dealer_hand →
      ∃ s2, update s = some s2 ∧ s2.game_state = GamePhase.done ∧
        s2.round_over = true ∧ s2.deck = s.deck ∧
        s2.player_hand = s.player_hand ∧ s2.dealer_hand = s.dealer_hand ∧
        (21 < score_hand s.dealer_hand →
          s2.winner_text = "Dealer busted! You win.") ∧
        (score_hand s.dealer_hand ≤ 21 ∧
            score_hand s.dealer_hand < score_hand s.player_hand →
          s2.winner_text = "You win!") ∧
        (score_hand s.dealer_hand ≤ 21 ∧
            score_hand s.player_hand < score_hand s.dealer_hand →
          s2.winner_text = "Dealer wins.") ∧
        (score_hand s.dealer_hand ≤ 21 ∧
            score_hand s.player_hand = score_hand s.dealer_hand →
          s2.winner_text = "It's a tie!")) := by
  constructor
  · intro c d hpop hlt
    refine ⟨{ s with deck := d, dealer_hand := s.dealer_hand ++ [c] },
      ?_, rfl, rfl, rfl, hphase, rfl, rfl⟩
    simp only [update, hphase, hpop, if_true]
    rw [if_pos hlt]
  · intro hge
    refine ⟨{ s with
        game_state := GamePhase.done,
        round_over := true,
        winner_text := determine_winner s },
      ?_, rfl, rfl, rfl, rfl, rfl, ?_, ?_, ?_, ?_⟩
    · simp only [update, hphase, if_true]
      rw [if_neg (by omega)]
    · intro h21
      simp only [determine_winner]
      rw [if_pos h21]
    · rintro ⟨hle, hlt⟩
      simp only [determine_winner]
      rw [if_neg (by omega), if_pos hlt]
    · rintro ⟨hle, hlt⟩
      simp only [determine_winner]
      rw [if_neg (by omega), if_neg (by omega), if_pos hlt]
    · rintro ⟨hle, heq⟩
      simp only [determine_winner]
      rw [if_neg (by omega), if_neg (by omega), if_neg (by omega)]

/-- Witness for C3: scenario 5 of the specification — the dealer stands on
18 against a player 17 and wins. -/
theorem update_dealer_turn_witness :
    ∃ s2, update
        { deck := [((5 : Nat), '♦')],
          player_hand := [((10 : Nat), '♣'), (7, '♦')],
          dealer_hand := [((10 : Nat), '♠'), (8, '♠')], round_over := false,
          winner_text := "", game_state := GamePhase.dealerTurn }
      = some s2 ∧ s2.game_state = GamePhase.done ∧
      s2.round_over = true ∧ s2.deck = [((5 : Nat), '♦')] ∧
      s2.player_hand = [((10 : Nat), '♣'), (7, '♦')] ∧
      s2.dealer_hand = [((10 : Nat), '♠'), (8, '♠')] ∧
      (21 < score_hand [((10 : Nat), '♠'), (8, '♠')] →
        s2.winner_text = "Dealer busted! You win.") ∧
      (score_hand [((10 : Nat), '♠'), (8, '♠')] ≤ 21 ∧
          score_hand [((10 : Nat), '♠'), (8, '♠')]
            < score_hand [((10 : Nat), '♣'), (7, '♦')] →
        s2.winner_text = "You win!") ∧
      (score_hand [((10 : Nat), '♠'), (8, '♠')] ≤ 21 ∧
          score_hand [((10 : Nat), '♣'), (7, '♦')]
            < score_hand [((10 : Nat), '♠'), (8, '♠')] →
        s2.winner_text = "Dealer wins.") ∧
      (score_hand [((10 : Nat), '♠'), (8, '♠')] ≤ 21 ∧
          score_hand [((10 : Nat), '♣'), (7, '♦')]
            = score_hand [((10 : Nat), '♠'), (8, '♠')] →
        s2.winner_text = "It's a tie!") :=
  (update_dealer_turn _ (by decide)).2 (by decide)

/-! ### Claim C6: the no-duplicate-cards invariant -/

theorem make_deck_nodup : make_deck.Nodup := by decide

/-- Every state-machine step permutes the multiset of cards: a draw only
moves the deck's end card into a hand, and every other outcome leaves the
three collections untouched. -/
theorem gameStep_perm {s s2 : RoundState} (h : GameStep s s2) :
    (cardsOf s2).Perm (cardsOf s) := by
  cases h with
  | hit h =>
    unfold handle_hit at h
    split at h
    · split at h
      next => exact Option.noConfusion h
      next c d hpop =>
        have e := deckPop_eq_some hpop
        dsimp only [] at h
        split at h
        · obtain rfl := Option.some.inj h
          rw [List.perm_iff_count]
          intro x
          simp only [cardsOf, e, List.count_append, List.count_cons,
            List.count_nil]
          ring
        · split at h
          · obtain rfl := Option.some.inj h
            rw [List.perm_iff_count]
            intro x
            simp only [cardsOf, e, List.count_append, List.count_cons,
              List.count_nil]
            ring
          · obtain rfl := Option.some.inj h
            rw [List.perm_iff_count]
            intro x
            simp only [cardsOf, e, List.count_append, List.count_cons,
              List.count_nil]
            ring
    · obtain rfl := Option.some.inj h
      exact List.Perm.refl _
  | stand h =>
    unfold handle_stand at h
    split at h
    · obtain rfl := Option.some.inj h
      exact List.Perm.refl (cardsOf s)
    · obtain rfl := Option.some.inj h
      exact List.Perm.refl _
  | dealer h =>
    unfold update at h
    split at h
    · split at h
      · split at h
        next => exact Option.noConfusion h
        next c d hpop =>
          have e := deckPop_eq_some hpop
          obtain rfl := Option.some.inj h
          rw [List.perm_iff_count]
          intro x
          simp only [cardsOf, e, List.count_append, List.count_cons,
            List.count_nil]
          ring
      · obtain rfl := Option.some.inj h
        exact List.Perm.refl (cardsOf s)
    · obtain rfl := Option.some.inj h
      exact List.Perm.refl _

/-- Each step preserves the deck/hands invariant. -/
theorem gameStep_inv {s s2 : RoundState} (h : GameStep s s2)
    (hinv : RoundInv s) : RoundInv s2 := by
  obtain ⟨hnd, hmem⟩ := hinv
  have hp := gameStep_perm h
  exact ⟨hp.symm.nodup hnd, fun c hc => hmem c (hp.mem_iff.mp hc)⟩

/-- C6: in every state reachable from the start of a round (any shuffle of
the fresh 52-card deck) by Hit, Stand and dealer auto-play steps, the
remaining deck and the two hands together contain no card twice and only
cards of the 52-card universe — no card is drawn twice until the deck is
rebuilt. -/
theorem reachable_no_duplicates (d : List Card) (s0 s : RoundState)
    (hd : d.Perm make_deck) (h0 : new_round d = some s0)
    (hreach : Relation.ReflTransGen GameStep s0 s) : RoundInv s := by
  have hinv0 : RoundInv s0 := by
    obtain ⟨_, _, _, _, _, _, hperm⟩ := new_round_cards h0
    have hperm2 : (cardsOf s0).Perm make_deck := hperm.trans hd
    exact ⟨hperm2.symm.nodup make_deck_nodup,
      fun c hc => hperm2.mem_iff.mp hc⟩
  induction hreach with
  | refl => exact hinv0
  | tail _ hstep ih => exact gameStep_inv hstep ih

/-- Witness for C6: the state dealt from the identity shuffle, reached by
the empty step sequence. -/
theorem reachable_no_duplicates_witness :
    RoundInv { deck := make_deck.take 48,
               player_hand := [((13 : Nat), '♠'), (12, '♠')],
               dealer_hand := [((11 : Nat), '♠'), (10, '♠')],
               round_over := false, winner_text := "",
               game_state := GamePhase.playerTurn } :=
  reachable_no_duplicates make_deck _ _ (List.Perm.refl _) (by decide)
    Relation.ReflTransGen.refl

end Blackjack
